import Mathlib

/-!
Verification of the chess rating-history aggregation pipeline
(src/unnamed/part_000): the remote fetch primitive, the monthly archive URL
planner, the bounded batch fetcher, the rating-history reducer with its
day-granularity cache, and the head-to-head aggregator.

Shallow embedding conventions: the network and the persistent store are
modelled as explicit oracles passed to each function; JavaScript optional
fields are Option values; code that can throw returns Except.
-/

namespace Chess

/-- One participant object of a game record; the archive API may omit the
username or deliver a non-numeric rating (both modelled as none, matching
the typeof / optional-chaining checks in the code). -/
structure Side where
  username : Option String
  rating : Option Int
deriving DecidableEq

/-- A game record as consumed from the archive endpoint: end_time in epoch
seconds, a time-control class, the rated flag, and optional white / black
participant objects. -/
structure Game where
  end_time : Int
  time_class : String
  rated : Bool
  white : Option Side
  black : Option Side
deriving DecidableEq

/-- A rating sample of the produced history series (part_000 line 110). -/
structure Sample where
  date : String
  rating : Int
  epoch : Int
deriving DecidableEq

/-- The JSON payload fields the pipeline reads.  A none field models both an
absent key and a value of the wrong JSON type (the code guards every access
with Array.isArray, Number.isFinite or optional chaining). -/
structure Payload where
  games : Option (List Game)
  joined : Option Int
  archives : Option (List String)
deriving DecidableEq

/-- Outcome of one underlying HTTP round trip for a given URL: either the
transport fails, or a response arrives with a status code and a body that
parses to a payload (none models a malformed JSON body). -/
inductive TransportResult where
  | transportFail : TransportResult
  | response (status : Int) (body : Option Payload) : TransportResult

/-- The distinguishable failure species a caller of the pipeline can observe:
the Error thrown by fetchJson on a non-success status (carrying status and
URL, part_000 line 8), the rejection of the underlying transport, the
rejection of response.json() on a malformed body, and the TypeError raised
by an unguarded property access. -/
inductive JsError where
  | requestError (status : Int) (url : String) : JsError
  | transportError : JsError
  | parseError : JsError
  | typeError : JsError
deriving DecidableEq

/-- Embedding of fetchJson (part_000 lines 5-11): issue the request, throw a
request error carrying status and URL when response.ok is false (ok means a
status in 200..299), otherwise parse the body. -/
def fetchJson (url : String) (net : String → TransportResult) :
    Except JsError Payload :=
  match net url with
  | .transportFail => .error .transportError
  | .response status body =>
    if 200 ≤ status ∧ status ≤ 299 then
      match body with
      | some payload => .ok payload
      | none => .error .parseError
    else .error (.requestError status url)

/-- Lower-casing of one character as performed by toLowerCase (ASCII range;
the usernames handled by the pipeline are ASCII). -/
def jsCharLower (c : Char) : Char := Char.toLower c

/-- Model of String.prototype.toLowerCase, written so that it evaluates
inside the kernel (character-wise map over the underlying character
list). -/
def jsToLower (s : String) : String := String.mk (s.data.map jsCharLower)

/-- Proleptic-Gregorian conversion of a day number (days since 1970-01-01)
to (year, month, day) with month in 1..12, modelling the UTC accessors of
the JavaScript Date builtin (getUTCFullYear, getUTCMonth, getUTCDate).
Division here is Int division with the Euclidean convention, which agrees
with floor division for the positive literal divisors used. -/
def civilFromDays (z0 : Int) : Int × Int × Int :=
  let z := z0 + 719468
  let era := z / 146097
  let doe := z % 146097
  let yoe := (doe - doe / 1460 + doe / 36524 - doe / 146096) / 365
  let y := yoe + era * 400
  let doy := doe - (365 * yoe + yoe / 4 - yoe / 100)
  let mp := (5 * doy + 2) / 153
  let d := doy - (153 * mp + 2) / 5 + 1
  let m := if mp < 10 then mp + 3 else mp - 9
  (if m ≤ 2 then y + 1 else y, m, d)

/-- UTC calendar year of an epoch-seconds timestamp, as computed by
new Date(epoch * 1000).getUTCFullYear(). -/
def utcYearOf (epochSeconds : Int) : Int :=
  (civilFromDays (epochSeconds / 86400)).1

/-- UTC calendar month (1-based) of an epoch-seconds timestamp, as computed
by new Date(epoch * 1000).getUTCMonth() + 1. -/
def utcMonthOf (epochSeconds : Int) : Int :=
  (civilFromDays (epochSeconds / 86400)).2.1

/-- Model of String(n).padStart(2, "0") applied to a rendered number. -/
def jsPadStart2 (s : String) : String :=
  if 2 ≤ s.length then s else String.mk (List.replicate (2 - s.length) '0') ++ s

/-- The monthly archive URL pushed by the planner loop (part_000 line 32). -/
def archiveUrl (username : String) (year month : Int) : String :=
  "https://api.chess.com/pub/player/" ++ username ++ "/games/" ++
    toString year ++ "/" ++ jsPadStart2 (toString month)

/-- Embedding of the planner while-loop (part_000 lines 30-39): emit one URL
for the current (year, month) while it does not exceed (endYear, endMonth),
stepping month by month and rolling over to January of the next year. -/
def monthLoop (username : String) (year month endYear endMonth : Int) :
    List String :=
  if h : year < endYear ∨ (year = endYear ∧ month ≤ endMonth) then
    archiveUrl username year month ::
      (if h2 : 12 < month + 1 then
        monthLoop username (year + 1) 1 endYear endMonth
      else
        monthLoop username year (month + 1) endYear endMonth)
  else []
termination_by ((endYear + 1 - year).toNat, (13 - month).toNat)
decreasing_by
· apply Prod.Lex.left
  omega
· apply Prod.Lex.right
  omega

/-- Embedding of getMonthUrlsFromJoined (part_000 lines 17-42).  The joined
epoch is an Option: none models every value rejected by Number.isFinite
(absent field, NaN, non-number).  The current UTC (year, month) pair is
passed explicitly in place of new Date(). -/
def getMonthUrlsFromJoined (username : String) (joinedEpoch : Option Int)
    (endYear endMonth : Int) : List String :=
  match joinedEpoch with
  | none => []
  | some epoch =>
    monthLoop username (utcYearOf epoch) (utcMonthOf epoch) endYear endMonth

set_option linter.unusedVariables false in
/-- The consecutive batches built by the chunking loop (part_000 lines
45-48).  The chunkSize = 0 branch is unreachable: the source always calls
with the default chunk size 8 (a zero chunk size would make the source loop
run forever). -/
def chunksOf (chunkSize : Nat) : List String → List (List String)
  | [] => []
  | url :: rest =>
    if h : chunkSize = 0 then []
    else
      (url :: rest).take chunkSize ::
        chunksOf chunkSize ((url :: rest).drop chunkSize)
termination_by l => l.length
decreasing_by
simp only [List.length_drop, List.length_cons]
omega

/-- Processing of one settled fetch result (part_000 lines 54-58): a
rejected fetch contributes nothing, a fulfilled fetch contributes its games
array when Array.isArray holds and nothing otherwise. -/
def settleStep (allGames : List Game) (result : Except JsError Payload) :
    List Game :=
  match result with
  | .error _ => allGames
  | .ok value => allGames ++ (value.games.getD [])

/-- Embedding of fetchMonthlyArchives (part_000 lines 44-62): partition the
URLs into batches, settle every fetch of a batch, and append the games of
the fulfilled ones in order. -/
def fetchMonthlyArchives (monthUrls : List String)
    (net : String → TransportResult) (chunkSize : Nat) : List Game :=
  let chunks := chunksOf chunkSize monthUrls
  chunks.foldl
    (fun allGames chunk =>
      (chunk.map (fun url => fetchJson url net)).foldl settleStep allGames)
    []

/-- The optionally chained lower-cased username of one side, as read by
game.white?.username?.toLowerCase() (part_000 lines 99-100). -/
def sideNameLower (side : Option Side) : Option String :=
  (side.bind Side.username).map jsToLower

/-- The side selected for the target player by the color conditional
(part_000 lines 99-101): some side when a participant username matches the
normalized handle (white checked first), none when neither matches. -/
def pickSide (normalizedUsername : String) (game : Game) :
    Option (Option Side) :=
  if sideNameLower game.white == some normalizedUsername then some game.white
  else if sideNameLower game.black == some normalizedUsername then
    some game.black
  else none

/-- Lookup in the history map, modelled as an insertion-ordered association
list from day string to sample (JavaScript Map semantics). -/
def mapGet (m : List (String × Sample)) (k : String) : Option Sample :=
  match m.find? (fun e => e.1 == k) with
  | some e => some e.2
  | none => none

/-- Map.set semantics: replace the entry in place when the key exists,
append the new entry otherwise. -/
def mapSet (m : List (String × Sample)) (k : String) (v : Sample) :
    List (String × Sample) :=
  if m.any (fun e => e.1 == k) then
    m.map (fun e => if e.1 == k then (k, v) else e)
  else m ++ [(k, v)]

/-- Modelled from the spec: the repository function toIsoDate lives in
src/utils/formatting, which is not part of the provided sources.  Spec
sections 3 and 4.4 define the day key as the UTC-derived ISO calendar day
string (YYYY-MM-DD) of the end_time epoch, exactly what
new Date(epoch * 1000).toISOString().slice(0, 10) produces. -/
def toIsoDate (epochSeconds : Int) : String :=
  let c := civilFromDays (epochSeconds / 86400)
  toString c.1 ++ "-" ++ jsPadStart2 (toString c.2.1) ++ "-" ++
    jsPadStart2 (toString c.2.2)

/-- The body of the reducer loop (part_000 lines 98-112): determine the
player color, require a numeric rating, and store the sample for the day
when no sample exists yet or the new end_time is strictly later. -/
def historyStep (normalizedUsername : String) (m : List (String × Sample))
    (game : Game) : List (String × Sample) :=
  match pickSide normalizedUsername game with
  | none => m
  | some side =>
    match side.bind Side.rating with
    | none => m
    | some rating =>
      let date := toIsoDate game.end_time
      match mapGet m date with
      | none => mapSet m date { date := date, rating := rating, epoch := game.end_time }
      | some previous =>
        if previous.epoch < game.end_time then
          mapSet m date { date := date, rating := rating, epoch := game.end_time }
        else m

/-- Ascending end_time order used by the pre-reduction sort
(part_000 line 96, comparator a.end_time - b.end_time). -/
def endTimeLe (a b : Game) : Prop := a.end_time ≤ b.end_time

instance : DecidableRel endTimeLe := fun a b =>
  inferInstanceAs (Decidable (a.end_time ≤ b.end_time))

instance : IsTotal Game endTimeLe := ⟨fun a b => Int.le_total a.end_time b.end_time⟩

instance : IsTrans Game endTimeLe := ⟨fun _ _ _ h1 h2 => le_trans h1 h2⟩

/-- Ascending date order used by the final sort (part_000 line 114,
comparator a.date.localeCompare(b.date)). -/
def dateLe (a b : Sample) : Prop := a.date ≤ b.date

instance : DecidableRel dateLe := fun a b =>
  inferInstanceAs (Decidable (a.date ≤ b.date))

instance : IsTotal Sample dateLe := ⟨fun a b => le_total a.date b.date⟩

instance : IsTrans Sample dateLe := ⟨fun _ _ _ h1 h2 => le_trans h1 h2⟩

/-- Descending end_time order used by the head-to-head sort
(part_000 line 161, comparator b.end_time - a.end_time). -/
def endTimeGe (a b : Game) : Prop := b.end_time ≤ a.end_time

instance : DecidableRel endTimeGe := fun a b =>
  inferInstanceAs (Decidable (b.end_time ≤ a.end_time))

/-- Embedding of the reduction stage of fetchRapidHistory (part_000 lines
92-114), generalized over the time-class literal "rapid" exactly as the
spec reducer contract reduce(games, handle, timeClass) states; the caller
fetchRapidHistory instantiates timeClass with "rapid". -/
def reduceHistory (monthlyGames : List Game) (normalizedUsername : String)
    (timeClass : String) : List Sample :=
  let rapidGames :=
    List.insertionSort endTimeLe
      (monthlyGames.filter (fun g => g.time_class == timeClass && g.rated))
  let historyMap := rapidGames.foldl (historyStep normalizedUsername) []
  List.insertionSort dateLe (historyMap.map (fun e => e.2))

/-- The fixed cache key prefix (part_000 line 3; source constant name ends
in a word the verification toolchain reserves, hence the renaming). -/
def historyCacheKeyBase : String := "chess-rapid-history-v3"

/-- What reading the persistent store at one key can yield, distinguishing
exactly the cases the code distinguishes (part_000 lines 69-79): getItem
throws (storage unavailable), getItem returns a falsy value, JSON.parse
throws (corrupt payload), or a parsed object with an optional refreshKey
string field and a history field that is an array (some) or not (none). -/
inductive CacheRead where
  | getThrow : CacheRead
  | absent : CacheRead
  | parseThrow : CacheRead
  | parsed (refreshKey : Option String) (history : Option (List Sample)) : CacheRead

/-- The try-block of the cache lookup (part_000 lines 70-76) before the
catch: an exception propagates as Except.error, a validated entry as
some history, anything else falls through as none. -/
def readCachedHistory (refreshKey : String) (r : CacheRead) :
    Except Unit (Option (List Sample)) :=
  match r with
  | .getThrow => .error ()
  | .absent => .ok none
  | .parseThrow => .error ()
  | .parsed storedKey history =>
    .ok (if storedKey = some refreshKey then history else none)

/-- The cache lookup with its enclosing catch (part_000 lines 69-79): any
thrown error is swallowed and treated as a miss. -/
def cacheLookup (refreshKey : String) (r : CacheRead) : Option (List Sample) :=
  match readCachedHistory refreshKey r with
  | .error _ => none
  | .ok v => v

/-- The profile endpoint URL (part_000 line 81). -/
def profileUrl (username : String) : String :=
  "https://api.chess.com/pub/player/" ++ username

/-- The archive-index fallback endpoint URL (part_000 line 87). -/
def archivesIndexUrl (username : String) : String :=
  profileUrl username ++ "/games/archives"

/-- The plan-resolution stage shared verbatim by fetchRapidHistory
(part_000 lines 81-88) and fetchGamesBetween (lines 137-144): fetch the
profile, plan month URLs from its joined epoch, and fall back to the
archive-index endpoint when the plan is empty.  Errors of either fetch
propagate. -/
def resolveArchives (normalizedUsername : String) (endYear endMonth : Int)
    (net : String → TransportResult) : Except JsError (List String) :=
  match fetchJson (profileUrl normalizedUsername) net with
  | .error e => .error e
  | .ok profileData =>
    let monthUrls :=
      getMonthUrlsFromJoined normalizedUsername profileData.joined endYear endMonth
    if 0 < monthUrls.length then .ok monthUrls
    else
      match fetchJson (archivesIndexUrl normalizedUsername) net with
      | .error e => .error e
      | .ok index => .ok (index.archives.getD [])

/-- Embedding of fetchRapidHistory (part_000 lines 64-126).  The ambient
state is explicit: today is the UTC day string of getUtcRefreshKey(), store
maps a storage key to a read outcome, (endYear, endMonth) is the current
UTC month of new Date(), net is the transport, and writeOk tells whether
the final setItem succeeds (false models a thrown quota error, swallowed by
the catch on lines 121-123). -/
def fetchRapidHistory (username today : String)
    (store : String → CacheRead) (endYear endMonth : Int)
    (net : String → TransportResult) (writeOk : Bool) :
    Except JsError (List Sample) :=
  let normalizedUsername := jsToLower username
  let cacheKey := historyCacheKeyBase ++ ":" ++ normalizedUsername
  let refreshKey := today
  match cacheLookup refreshKey (store cacheKey) with
  | some history => .ok history
  | none =>
    match resolveArchives normalizedUsername endYear endMonth net with
    | .error e => .error e
    | .ok fallbackArchives =>
      let monthlyGames := fetchMonthlyArchives fallbackArchives net 8
      let history := reduceHistory monthlyGames normalizedUsername "rapid"
      match (if writeOk then Except.ok () else Except.error ()) with
      | Except.ok _ => .ok history
      | Except.error (_ : Unit) => .ok history

/-- The filter callback of fetchGamesBetween (part_000 lines 150-158): the
rated-rapid guard returns false early; afterwards game.white.username and
game.black.username are dereferenced without a guard, throwing a TypeError
when a participant object or its username is missing. -/
def mutualPred (p1 p2 : String) (game : Game) : Except JsError Bool :=
  if game.time_class ≠ "rapid" ∨ game.rated = false then .ok false
  else
    match game.white with
    | none => .error .typeError
    | some w =>
      match w.username with
      | none => .error .typeError
      | some wn =>
        match game.black with
        | none => .error .typeError
        | some b =>
          match b.username with
          | none => .error .typeError
          | some bn =>
            let white := jsToLower wn
            let black := jsToLower bn
            .ok ((white == p1 && black == p2) || (white == p2 && black == p1))

/-- Array.prototype.filter with a callback that may throw: elements are
visited in order and the first thrown error aborts the whole call. -/
def filterE (p : α → Except ε Bool) : List α → Except ε (List α)
  | [] => .ok []
  | x :: xs =>
    match p x with
    | .error e => .error e
    | .ok b =>
      match filterE p xs with
      | .error e => .error e
      | .ok rest => .ok (if b then x :: rest else rest)

/-- Embedding of fetchGamesBetween (part_000 lines 132-162): resolve the
first player's archives, fetch all games, keep the rated rapid games whose
participants are exactly the two handles, and sort newest first. -/
def fetchGamesBetween (player1 player2 : String) (endYear endMonth : Int)
    (net : String → TransportResult) : Except JsError (List Game) :=
  let p1 := jsToLower player1
  let p2 := jsToLower player2
  match resolveArchives p1 endYear endMonth net with
  | .error e => .error e
  | .ok archives =>
    let allGames := fetchMonthlyArchives archives net 8
    match filterE (mutualPred p1 p2) allGames with
    | .error e => .error e
    | .ok mutualGames => .ok (List.insertionSort endTimeGe mutualGames)

/-! ### Specification-side reference definitions

These definitions follow the wording of the specification; the theorems
below compare the embedded source functions against them. -/

/-- The archive URL as the spec states it: month zero-padded to two digits
(spec section 4.2). -/
def specArchiveUrl (username : String) (year month : Int) : String :=
  "https://api.chess.com/pub/player/" ++ username ++ "/games/" ++
    toString year ++ "/" ++
    (if month < 10 then "0" ++ toString month else toString month)

/-- Chronological index of a calendar month (strictly monotone in the
year/month order). -/
def monthIndex (year month : Int) : Int := year * 12 + month

/-- The calendar month with zero-based month offset t, i.e. the inverse of
fun ym => monthIndex ym.1 ym.2 - 1. -/
def monthOfOffset (t : Int) : Int × Int := (t / 12, t % 12 + 1)

/-- The inclusive month range from the start month through the end month,
one entry per calendar month in chronological order (spec section 4.2). -/
def monthsBetween (startYear startMonth endYear endMonth : Int) :
    List (Int × Int) :=
  (List.range (monthIndex endYear endMonth - monthIndex startYear startMonth + 1).toNat).map
    (fun i : Nat => monthOfOffset (monthIndex startYear startMonth - 1 + (i : Int)))

/-- The games one URL contributes according to the spec of the bounded
fetcher (section 4.3): a failed fetch and a fulfilled fetch without a games
array contribute zero games, a fulfilled fetch with a games array
contributes exactly that array. -/
def settledGames (net : String → TransportResult) (url : String) :
    List Game :=
  match fetchJson url net with
  | .error _ => []
  | .ok value => value.games.getD []

/-- The normalized username of a side as the head-to-head spec reads it
(section 4.6); defaults to the empty string when absent, which the
well-formedness hypotheses of the theorems rule out. -/
def normName (side : Option Side) : String :=
  jsToLower ((side.bind Side.username).getD "")

/-- The head-to-head filter as the spec states it (section 4.6): rated
records of the fixed class whose normalized participant usernames equal the
two handles in either color assignment. -/
def specMutual (p1 p2 : String) (g : Game) : Bool :=
  g.rated && g.time_class == "rapid" &&
    ((normName g.white == p1 && normName g.black == p2) ||
     (normName g.white == p2 && normName g.black == p1))

/-- Both participant objects exist and carry a username, so the unguarded
dereferences of fetchGamesBetween cannot throw on this record. -/
def wellFormed (g : Game) : Prop :=
  (g.white.bind Side.username).isSome ∧ (g.black.bind Side.username).isSome

instance (g : Game) : Decidable (wellFormed g) :=
  inferInstanceAs (Decidable ((g.white.bind Side.username).isSome ∧
    (g.black.bind Side.username).isSome))

/-- Whether the reducer loop lets a game reach the day map: some side
matches the normalized handle and that side carries a numeric rating. -/
def contributes (normalizedUsername : String) (game : Game) : Bool :=
  match pickSide normalizedUsername game with
  | none => false
  | some side => (side.bind Side.rating).isSome

/-- The read outcomes the spec calls cache misses (section 4.5): storage
unavailable, missing key, corrupt payload, or a parsed entry whose
refreshKey is not today or whose history is not an array. -/
def missRead (today : String) (r : CacheRead) : Prop :=
  r = .getThrow ∨ r = .absent ∨ r = .parseThrow ∨
    ∃ storedKey history, r = .parsed storedKey history ∧
      (storedKey ≠ some today ∨ history = none)

/-! ### Stable sort and filter lemmas -/

/-- Inserting an element produces the original list with the element spliced
in at one position. -/
lemma orderedInsert_decomp (r : α → α → Prop) [DecidableRel r] (x : α) :
    ∀ s : List α, ∃ s1 s2, List.orderedInsert r x s = s1 ++ x :: s2 ∧ s = s1 ++ s2
  | [] => ⟨[], [], rfl, rfl⟩
  | y :: t => by
    by_cases h : r x y
    · exact ⟨[], y :: t, by simp [List.orderedInsert, h], rfl⟩
    · obtain ⟨s1, s2, h1, h2⟩ := orderedInsert_decomp r x t
      exact ⟨y :: s1, s2, by simp [List.orderedInsert, h, h1], by simp [h2]⟩

/-- Insertion goes to the front when the element is below the whole list. -/
lemma orderedInsert_eq_cons (r : α → α → Prop) [DecidableRel r] (x : α)
    (s : List α) (h : ∀ z ∈ s, r x z) : List.orderedInsert r x s = x :: s := by
  cases s with
  | nil => rfl
  | cons y t => simp [List.orderedInsert, h y (by simp)]

/-- Filtering commutes with inserting a kept element into a sorted list. -/
lemma filter_orderedInsert (r : α → α → Prop) [DecidableRel r] [IsTrans α r]
    (p : α → Bool) (x : α) (hx : p x = true) :
    ∀ s : List α, List.Sorted r s →
      (List.orderedInsert r x s).filter p = List.orderedInsert r x (s.filter p)
  | [], _ => by simp [hx]
  | y :: t, hs => by
    have hyall := List.rel_of_sorted_cons hs
    by_cases hr : r x y
    · by_cases hpy : p y = true
      · simp [List.orderedInsert, hr, hx, hpy]
      · have hfy : p y = false := by simp_all
        have hall : ∀ z ∈ t.filter p, r x z := by
          intro z hz
          exact IsTrans.trans x y z hr (hyall z (List.mem_of_mem_filter hz))
        rw [List.orderedInsert, if_pos hr]
        rw [List.filter_cons_of_pos hx, List.filter_cons_of_neg (by simp [hfy]),
          orderedInsert_eq_cons r x _ hall]
    · by_cases hpy : p y = true
      · rw [List.orderedInsert, if_neg hr]
        rw [List.filter_cons_of_pos hpy, List.filter_cons_of_pos hpy,
          List.orderedInsert, if_neg hr,
          filter_orderedInsert r p x hx t hs.of_cons]
      · have hfy : p y = false := by simp_all
        rw [List.orderedInsert, if_neg hr]
        rw [List.filter_cons_of_neg (by simp [hfy]),
          List.filter_cons_of_neg (by simp [hfy]),
          filter_orderedInsert r p x hx t hs.of_cons]

/-- Filtering out the inserted element recovers the filtered base list. -/
lemma filter_orderedInsert_neg (r : α → α → Prop) [DecidableRel r]
    (p : α → Bool) (x : α) (hx : p x = false) (s : List α) :
    (List.orderedInsert r x s).filter p = s.filter p := by
  obtain ⟨s1, s2, h1, h2⟩ := orderedInsert_decomp r x s
  rw [h1, h2]
  rw [List.filter_append, List.filter_append,
    List.filter_cons_of_neg (by simp [hx])]

/-- A stable insertion sort commutes with filtering. -/
lemma filter_insertionSort (r : α → α → Prop) [DecidableRel r] [IsTotal α r]
    [IsTrans α r] (p : α → Bool) :
    ∀ l : List α,
      (List.insertionSort r l).filter p = List.insertionSort r (l.filter p)
  | [] => rfl
  | a :: l => by
    by_cases hpa : p a = true
    · rw [List.insertionSort,
        filter_orderedInsert r p a hpa _ (List.sorted_insertionSort r l),
        filter_insertionSort r p l, List.filter_cons_of_pos hpa,
        List.insertionSort]
    · have hfa : p a = false := by simp_all
      rw [List.insertionSort, filter_orderedInsert_neg r p a hfa,
        filter_insertionSort r p l, List.filter_cons_of_neg (by simp [hfa])]

/-- A left fold ignores the elements on which the step function is the
identity. -/
lemma foldl_skip {β : Type u} (step : β → α → β) (keep : α → Bool)
    (hstep : ∀ m x, keep x = false → step m x = m) :
    ∀ (l : List α) (init : β),
      l.foldl step init = (l.filter keep).foldl step init
  | [], _ => rfl
  | x :: xs, init => by
    by_cases hx : keep x = true
    · rw [List.foldl_cons, List.filter_cons_of_pos hx, List.foldl_cons,
        foldl_skip step keep hstep xs]
    · have hfx : keep x = false := by simp_all
      rw [List.foldl_cons, hstep init x hfx,
        List.filter_cons_of_neg (by simp [hfx]),
        foldl_skip step keep hstep xs]

/-! ### Reducer drop lemmas -/

/-- A game that matches no side or has no numeric rating leaves the day map
unchanged (the two continue branches of the reducer loop). -/
lemma historyStep_skip (u : String) (m : List (String × Sample)) (g : Game)
    (h : contributes u g = false) : historyStep u m g = m := by
  unfold historyStep
  cases hp : pickSide u g with
  | none => rfl
  | some side =>
    cases hr : side.bind Side.rating with
    | none => simp [hr]
    | some rv =>
      unfold contributes at h
      simp [hp, hr] at h

/-- Dropping one non-contributing game from the input leaves the reduced
series unchanged, wherever the game sits in the input order. -/
lemma reduceHistory_drop (l1 l2 : List Game) (g : Game) (u tc : String)
    (h : (g.time_class == tc && g.rated) = false ∨ contributes u g = false) :
    reduceHistory (l1 ++ g :: l2) u tc = reduceHistory (l1 ++ l2) u tc := by
  have hstep : ∀ (m : List (String × Sample)) (x : Game),
      contributes u x = false → historyStep u m x = m :=
    fun m x hx => historyStep_skip u m x hx
  by_cases hf : (g.time_class == tc && g.rated) = true
  · have hc : contributes u g = false := by
      rcases h with h0 | h0
      · rw [hf] at h0; exact absurd h0 (by simp)
      · exact h0
    simp only [reduceHistory]
    rw [foldl_skip (historyStep u) (contributes u) hstep,
      filter_insertionSort endTimeLe (contributes u)]
    conv_rhs =>
      rw [foldl_skip (historyStep u) (contributes u) hstep,
        filter_insertionSort endTimeLe (contributes u)]
    have heq : ((l1 ++ g :: l2).filter
          (fun g' => g'.time_class == tc && g'.rated)).filter (contributes u) =
        ((l1 ++ l2).filter
          (fun g' => g'.time_class == tc && g'.rated)).filter (contributes u) := by
      simp [List.filter_append, List.filter_cons, hf, hc]
    rw [heq]
  · have hff : (g.time_class == tc && g.rated) = false := by
      cases hb : (g.time_class == tc && g.rated) with
      | false => rfl
      | true => exact absurd hb hf
    simp [reduceHistory, List.filter_append, List.filter_cons, hff]

/-- Claim C5: a game with rated false, with a different time class, whose
sides both fail the handle match, or whose matched side lacks a numeric
rating never contributes a sample to the reduced history series. -/
theorem c5_filter_correctness (games1 games2 : List Game) (g : Game)
    (u tc : String)
    (h : g.rated = false ∨ g.time_class ≠ tc ∨ pickSide u g = none ∨
      (∃ side, pickSide u g = some side ∧ side.bind Side.rating = none)) :
    reduceHistory (games1 ++ g :: games2) u tc =
      reduceHistory (games1 ++ games2) u tc := by
  apply reduceHistory_drop
  rcases h with h0 | h0 | h0 | ⟨side, hs, hr⟩
  · left; simp [h0]
  · left
    have : (g.time_class == tc) = false := beq_eq_false_iff_ne.mpr h0
    simp [this]
  · right; simp [contributes, h0]
  · right; simp [contributes, hs, hr]

/-- A rated rapid game of carol against dave: the handle alice matches
neither side. -/
def gameNoMatch : Game :=
  { end_time := 50, time_class := "rapid", rated := true,
    white := some { username := some "carol", rating := some 1200 },
    black := some { username := some "dave", rating := some 1100 } }

/-- Witness for C5 at a concrete input: the unmatched game contributes
nothing to the series. -/
theorem c5_witness :
    reduceHistory ([] ++ gameNoMatch :: []) "alice" "rapid" =
      reduceHistory ([] ++ []) "alice" "rapid" :=
  c5_filter_correctness [] [] gameNoMatch "alice" "rapid"
    (Or.inr (Or.inr (Or.inl (by decide))))

/-! ### Two-game reduction lemmas -/

/-- The stable ascending sort of a two-element list keeps the input order
exactly when the first end_time is at most the second. -/
lemma sortPair (x y : Game) :
    List.insertionSort endTimeLe [x, y] =
      if x.end_time ≤ y.end_time then [x, y] else [y, x] := by
  by_cases h : x.end_time ≤ y.end_time
  · simp [List.insertionSort, List.orderedInsert, endTimeLe, h]
  · simp [List.insertionSort, List.orderedInsert, endTimeLe, h]

/-- One reducer step on the empty map stores the game's sample under its
day key. -/
lemma historyStep_nil (u d : String) (a : Game) (sa : Option Side) (ra : Int)
    (hpa : pickSide u a = some sa) (hra : sa.bind Side.rating = some ra)
    (hda : toIsoDate a.end_time = d) :
    historyStep u [] a = [(d, { date := d, rating := ra, epoch := a.end_time })] := by
  simp [historyStep, hpa, hra, hda, mapGet, mapSet]

/-- A strictly later game on the same day replaces the stored sample. -/
lemma historyStep_replace (u d : String) (b : Game) (sb : Option Side)
    (rb : Int) (v : Sample) (hpb : pickSide u b = some sb)
    (hrb : sb.bind Side.rating = some rb) (hdb : toIsoDate b.end_time = d)
    (hlt : v.epoch < b.end_time) :
    historyStep u [(d, v)] b = [(d, { date := d, rating := rb, epoch := b.end_time })] := by
  simp [historyStep, hpb, hrb, hdb, mapGet, mapSet, List.find?, hlt]

/-- A game on the same day that is not strictly later leaves the stored
sample in place. -/
lemma historyStep_keep (u d : String) (b : Game) (sb : Option Side)
    (rb : Int) (v : Sample) (hpb : pickSide u b = some sb)
    (hrb : sb.bind Side.rating = some rb) (hdb : toIsoDate b.end_time = d)
    (hge : ¬ v.epoch < b.end_time) :
    historyStep u [(d, v)] b = [(d, v)] := by
  simp [historyStep, hpb, hrb, hdb, mapGet, mapSet, List.find?, hge]

/-- Full reduction of a qualifying two-game same-day collection, in both
input orders, for both the strict and the tied end_time case. -/
lemma reduceHistory_pair (g1 g2 : Game) (u tc d : String)
    (s1 s2 : Option Side) (r1 r2 : Int)
    (hc1 : g1.time_class = tc) (hr1 : g1.rated = true)
    (hc2 : g2.time_class = tc) (hr2 : g2.rated = true)
    (hp1 : pickSide u g1 = some s1) (hq1 : s1.bind Side.rating = some r1)
    (hp2 : pickSide u g2 = some s2) (hq2 : s2.bind Side.rating = some r2)
    (hd1 : toIsoDate g1.end_time = d) (hd2 : toIsoDate g2.end_time = d) :
    (g1.end_time < g2.end_time →
      reduceHistory [g1, g2] u tc = [{ date := d, rating := r2, epoch := g2.end_time }] ∧
      reduceHistory [g2, g1] u tc = [{ date := d, rating := r2, epoch := g2.end_time }]) ∧
    (g1.end_time = g2.end_time →
      reduceHistory [g1, g2] u tc = [{ date := d, rating := r1, epoch := g1.end_time }] ∧
      reduceHistory [g2, g1] u tc = [{ date := d, rating := r2, epoch := g2.end_time }]) := by
  have hfil12 : ([g1, g2].filter (fun g => g.time_class == tc && g.rated)) = [g1, g2] := by
    simp [hc1, hr1, hc2, hr2]
  have hfil21 : ([g2, g1].filter (fun g => g.time_class == tc && g.rated)) = [g2, g1] := by
    simp [hc1, hr1, hc2, hr2]
  constructor
  · intro hlt
    constructor
    · simp only [reduceHistory]
      rw [hfil12, sortPair, if_pos (le_of_lt hlt)]
      rw [List.foldl_cons, List.foldl_cons, List.foldl_nil]
      rw [historyStep_nil u d g1 s1 r1 hp1 hq1 hd1]
      rw [historyStep_replace u d g2 s2 r2 _ hp2 hq2 hd2 hlt]
      simp [List.insertionSort, List.orderedInsert]
    · simp only [reduceHistory]
      rw [hfil21, sortPair, if_neg (not_le.mpr hlt)]
      rw [List.foldl_cons, List.foldl_cons, List.foldl_nil]
      rw [historyStep_nil u d g1 s1 r1 hp1 hq1 hd1]
      rw [historyStep_replace u d g2 s2 r2 _ hp2 hq2 hd2 hlt]
      simp [List.insertionSort, List.orderedInsert]
  · intro heq
    constructor
    · simp only [reduceHistory]
      rw [hfil12, sortPair, if_pos (le_of_eq heq)]
      rw [List.foldl_cons, List.foldl_cons, List.foldl_nil]
      rw [historyStep_nil u d g1 s1 r1 hp1 hq1 hd1]
      rw [historyStep_keep u d g2 s2 r2 _ hp2 hq2 hd2 (by simp [heq])]
      simp [List.insertionSort, List.orderedInsert]
    · simp only [reduceHistory]
      rw [hfil21, sortPair, if_pos (le_of_eq heq.symm)]
      rw [List.foldl_cons, List.foldl_cons, List.foldl_nil]
      rw [historyStep_nil u d g2 s2 r2 hp2 hq2 hd2]
      rw [historyStep_keep u d g1 s1 r1 _ hp1 hq1 hd1 (by simp [heq])]
      simp [List.insertionSort, List.orderedInsert]

/-- The first rated rapid game of the spec scenario for claim C1: alice as
white, end_time 100, rating 1500. -/
def aliceGame1 : Game :=
  { end_time := 100, time_class := "rapid", rated := true,
    white := some { username := some "alice", rating := some 1500 },
    black := some { username := some "bob", rating := some 1400 } }

/-- The second rated rapid game of the spec scenario for claim C1: alice as
white, end_time 200, rating 1510. -/
def aliceGame2 : Game :=
  { end_time := 200, time_class := "rapid", rated := true,
    white := some { username := some "alice", rating := some 1510 },
    black := some { username := some "bob", rating := some 1390 } }

/-- Claim C1, counterexample to the literal scenario: the epochs 100 and
200 fall on the UTC day 1970-01-01, so the produced sample does not carry
the date 2024-03-05 stated by the spec scenario. -/
theorem c1_counterexample :
    reduceHistory [aliceGame1, aliceGame2] "alice" "rapid" ≠
      [{ date := "2024-03-05", rating := 1510, epoch := 200 }] := by
  decide

/-- Claim C1 as amended: for every pair of qualifying same-day games with
distinct end_time values, in either input order, the single sample of that
day carries the rating and epoch of the later game; and the alice scenario
with end_time 100 and 200 produces exactly one sample, carrying rating 1510
and epoch 200 under the day key 1970-01-01 on which those epochs fall. -/
theorem c1_last_writer_wins :
    (∀ (g1 g2 : Game) (u tc d : String) (s1 s2 : Option Side) (r1 r2 : Int),
      g1.time_class = tc → g1.rated = true →
      g2.time_class = tc → g2.rated = true →
      pickSide u g1 = some s1 → s1.bind Side.rating = some r1 →
      pickSide u g2 = some s2 → s2.bind Side.rating = some r2 →
      toIsoDate g1.end_time = d → toIsoDate g2.end_time = d →
      g1.end_time < g2.end_time →
      reduceHistory [g1, g2] u tc = [{ date := d, rating := r2, epoch := g2.end_time }] ∧
      reduceHistory [g2, g1] u tc = [{ date := d, rating := r2, epoch := g2.end_time }]) ∧
    reduceHistory [aliceGame1, aliceGame2] "alice" "rapid" =
      [{ date := "1970-01-01", rating := 1510, epoch := 200 }] := by
  constructor
  · intro g1 g2 u tc d s1 s2 r1 r2 hc1 hr1 hc2 hr2 hp1 hq1 hp2 hq2 hd1 hd2 hlt
    exact (reduceHistory_pair g1 g2 u tc d s1 s2 r1 r2 hc1 hr1 hc2 hr2
      hp1 hq1 hp2 hq2 hd1 hd2).1 hlt
  · decide

/-- Witness for C1: the general part applied to the concrete scenario games
reproduces the scenario sample in both input orders. -/
theorem c1_witness :
    reduceHistory [aliceGame1, aliceGame2] "alice" "rapid" =
      [{ date := "1970-01-01", rating := 1510, epoch := 200 }] ∧
    reduceHistory [aliceGame2, aliceGame1] "alice" "rapid" =
      [{ date := "1970-01-01", rating := 1510, epoch := 200 }] :=
  c1_last_writer_wins.1 aliceGame1 aliceGame2 "alice" "rapid" "1970-01-01"
    (some { username := some "alice", rating := some 1500 })
    (some { username := some "alice", rating := some 1510 })
    1500 1510 rfl rfl rfl rfl (by decide) (by decide) (by decide) (by decide)
    (by decide) (by decide) (by decide)

/-- Claim C9: when two qualifying same-day games carry equal end_time
values, the stable ascending sort keeps their input order, the stored
sample is replaced only on a strictly greater end_time, and therefore the
sample kept for the day is the one of the game that comes first in input
order among the tied games -- so the result depends on the input order. -/
theorem c9_tie_first_after_sort (g1 g2 : Game) (u tc d : String)
    (s1 s2 : Option Side) (r1 r2 : Int)
    (hc1 : g1.time_class = tc) (hr1 : g1.rated = true)
    (hc2 : g2.time_class = tc) (hr2 : g2.rated = true)
    (hp1 : pickSide u g1 = some s1) (hq1 : s1.bind Side.rating = some r1)
    (hp2 : pickSide u g2 = some s2) (hq2 : s2.bind Side.rating = some r2)
    (hd1 : toIsoDate g1.end_time = d) (hd2 : toIsoDate g2.end_time = d)
    (heq : g1.end_time = g2.end_time) :
    List.insertionSort endTimeLe [g1, g2] = [g1, g2] ∧
    List.insertionSort endTimeLe [g2, g1] = [g2, g1] ∧
    reduceHistory [g1, g2] u tc = [{ date := d, rating := r1, epoch := g1.end_time }] ∧
    reduceHistory [g2, g1] u tc = [{ date := d, rating := r2, epoch := g2.end_time }] := by
  refine ⟨?_, ?_, ?_⟩
  · rw [sortPair, if_pos (le_of_eq heq)]
  · rw [sortPair, if_pos (le_of_eq heq.symm)]
  · exact (reduceHistory_pair g1 g2 u tc d s1 s2 r1 r2 hc1 hr1 hc2 hr2
      hp1 hq1 hp2 hq2 hd1 hd2).2 heq

/-- A tied-end_time variant of the scenario games: same day, same epoch,
distinct ratings. -/
def tieGame1 : Game :=
  { end_time := 300, time_class := "rapid", rated := true,
    white := some { username := some "alice", rating := some 1600 },
    black := some { username := some "bob", rating := some 1500 } }

/-- Second tied game with a different rating for the same player. -/
def tieGame2 : Game :=
  { end_time := 300, time_class := "rapid", rated := true,
    white := some { username := some "alice", rating := some 1620 },
    black := some { username := some "bob", rating := some 1480 } }

/-- Witness for C9: with two tied games the kept sample follows the input
order, and the two orders produce different ratings. -/
theorem c9_witness :
    List.insertionSort endTimeLe [tieGame1, tieGame2] = [tieGame1, tieGame2] ∧
    List.insertionSort endTimeLe [tieGame2, tieGame1] = [tieGame2, tieGame1] ∧
    reduceHistory [tieGame1, tieGame2] "alice" "rapid" =
      [{ date := "1970-01-01", rating := 1600, epoch := 300 }] ∧
    reduceHistory [tieGame2, tieGame1] "alice" "rapid" =
      [{ date := "1970-01-01", rating := 1620, epoch := 300 }] :=
  c9_tie_first_after_sort tieGame1 tieGame2 "alice" "rapid" "1970-01-01"
    (some { username := some "alice", rating := some 1600 })
    (some { username := some "alice", rating := some 1620 })
    1600 1620 rfl rfl rfl rfl (by decide) (by decide) (by decide) (by decide)
    (by decide) (by decide) (by decide)

/-! ### Day-map invariant and claim C6 -/

/-- Invariant of the reducer's day map: every entry's stored sample carries
the entry's key as its date, and the keys are pairwise distinct. -/
def mapInv (m : List (String × Sample)) : Prop :=
  (∀ e ∈ m, e.2.date = e.1) ∧ (m.map (fun e => e.1)).Nodup

/-- Map.set preserves the day-map invariant when the stored sample carries
the key as its date. -/
lemma mapInv_set (m : List (String × Sample)) (k : String) (v : Sample)
    (hv : v.date = k) (h : mapInv m) : mapInv (mapSet m k v) := by
  unfold mapSet
  by_cases hany : m.any (fun e => e.1 == k) = true
  · rw [if_pos hany]
    constructor
    · intro e he
      obtain ⟨e0, he0, heq⟩ := List.mem_map.mp he
      by_cases hk : (e0.1 == k) = true
      · rw [if_pos hk] at heq
        rw [← heq]
        exact hv
      · rw [if_neg hk] at heq
        rw [← heq]
        exact h.1 e0 he0
    · have hkeys : (m.map (fun e => if e.1 == k then (k, v) else e)).map
          (fun e => e.1) = m.map (fun e => e.1) := by
        rw [List.map_map]
        apply List.map_congr_left
        intro e he
        by_cases hk : (e.1 == k) = true
        · simp [Function.comp, hk, eq_of_beq hk]
        · simp [Function.comp, hk]
      rw [hkeys]
      exact h.2
  · rw [if_neg hany]
    constructor
    · intro e he
      rcases List.mem_append.mp he with h0 | h0
      · exact h.1 e h0
      · rw [List.mem_singleton.mp h0]
        exact hv
    · rw [List.map_append]
      rw [List.nodup_append]
      refine ⟨h.2, by simp, ?_⟩
      intro x hx hx2
      obtain ⟨e0, he0, heq⟩ := List.mem_map.mp hx
      simp only [List.map_cons, List.map_nil, List.mem_singleton] at hx2
      apply hany
      rw [List.any_eq_true]
      exact ⟨e0, he0, by rw [heq, hx2]; exact beq_self_eq_true k⟩

/-- Each reducer step preserves the day-map invariant. -/
lemma mapInv_step (u : String) (m : List (String × Sample)) (g : Game)
    (h : mapInv m) : mapInv (historyStep u m g) := by
  unfold historyStep
  cases hp : pickSide u g with
  | none => exact h
  | some side =>
    cases hr : side.bind Side.rating with
    | none => simpa [hr] using h
    | some rating =>
      cases hg : mapGet m (toIsoDate g.end_time) with
      | none =>
        simpa [hr, hg] using mapInv_set m (toIsoDate g.end_time)
          { date := toIsoDate g.end_time, rating := rating, epoch := g.end_time } rfl h
      | some previous =>
        by_cases hlt : previous.epoch < g.end_time
        · simpa [hr, hg, hlt] using mapInv_set m (toIsoDate g.end_time)
            { date := toIsoDate g.end_time, rating := rating, epoch := g.end_time } rfl h
        · simpa [hr, hg, hlt] using h

/-- Folding the reducer step over any game list preserves the invariant. -/
lemma mapInv_fold (u : String) :
    ∀ (l : List Game) (m : List (String × Sample)),
      mapInv m → mapInv (l.foldl (historyStep u) m)
  | [], _, h => h
  | g :: t, m, h => by
    rw [List.foldl_cons]
    exact mapInv_fold u t (historyStep u m g) (mapInv_step u m g h)

/-- A list whose mapped keys are strictly increasing holds at most one
element per key. -/
lemma pairwise_filter_length_le_one {α : Type u} (f : α → String) :
    ∀ l : List α, List.Pairwise (fun a b => f a < f b) l →
      ∀ d : String, ((l.filter (fun x => f x == d)).length ≤ 1)
  | [], _, d => by simp
  | a :: t, h, d => by
    have ha := (List.pairwise_cons.mp h).1
    have ht := (List.pairwise_cons.mp h).2
    by_cases hd : (f a == d) = true
    · simp only [List.filter_cons]
      rw [if_pos hd]
      have hnil : t.filter (fun x => f x == d) = [] := by
        rw [List.filter_eq_nil_iff]
        intro x hx hbeq
        have h1 : f a < f x := ha x hx
        have h2 : f x = d := eq_of_beq hbeq
        have h3 : f a = d := eq_of_beq hd
        rw [h2, h3] at h1
        exact lt_irrefl d h1
      rw [hnil]
      simp
    · simp only [List.filter_cons]
      rw [if_neg hd]
      exact pairwise_filter_length_le_one f t ht d

/-- Claim C6: the produced history series has strictly increasing date
strings along the sequence, hence at most one sample per calendar day. -/
theorem c6_monotone_day_keys (games : List Game) (u tc : String) :
    List.Pairwise (fun a b : Sample => a.date < b.date)
      (reduceHistory games u tc) ∧
    ∀ d : String,
      ((reduceHistory games u tc).filter (fun s => s.date == d)).length ≤ 1 := by
  have hinv : mapInv ((List.insertionSort endTimeLe
      (games.filter (fun g => g.time_class == tc && g.rated))).foldl
        (historyStep u) []) :=
    mapInv_fold u _ [] ⟨by simp, by simp⟩
  have hout : reduceHistory games u tc =
      List.insertionSort dateLe
        (((List.insertionSort endTimeLe
          (games.filter (fun g => g.time_class == tc && g.rated))).foldl
            (historyStep u) []).map (fun e => e.2)) := rfl
  have hsorted : List.Sorted dateLe (reduceHistory games u tc) := by
    rw [hout]
    exact List.sorted_insertionSort dateLe _
  have hvalnodup :
      ((((List.insertionSort endTimeLe
        (games.filter (fun g => g.time_class == tc && g.rated))).foldl
          (historyStep u) []).map (fun e => e.2)).map
            (fun s => s.date)).Nodup := by
    rw [List.map_map]
    have : (((List.insertionSort endTimeLe
        (games.filter (fun g => g.time_class == tc && g.rated))).foldl
          (historyStep u) []).map ((fun s : Sample => s.date) ∘ (fun e : String × Sample => e.2))) =
        (((List.insertionSort endTimeLe
        (games.filter (fun g => g.time_class == tc && g.rated))).foldl
          (historyStep u) []).map (fun e => e.1)) := by
      apply List.map_congr_left
      intro e he
      exact hinv.1 e he
    rw [this]
    exact hinv.2
  have hperm : (reduceHistory games u tc).Perm
      (((List.insertionSort endTimeLe
        (games.filter (fun g => g.time_class == tc && g.rated))).foldl
          (historyStep u) []).map (fun e => e.2)) := by
    rw [hout]
    exact List.perm_insertionSort dateLe _
  have hnodup : ((reduceHistory games u tc).map (fun s : Sample => s.date)).Nodup :=
    ((hperm.map (fun s : Sample => s.date)).symm).nodup hvalnodup
  have hpairne : (reduceHistory games u tc).Pairwise
      (fun a b => a.date ≠ b.date) :=
    List.pairwise_map.mp hnodup
  have hlt : (reduceHistory games u tc).Pairwise
      (fun a b => a.date < b.date) :=
    (hsorted.and hpairne).imp (fun hab => lt_of_le_of_ne hab.1 hab.2)
  exact ⟨hlt, fun d => pairwise_filter_length_le_one (fun s : Sample => s.date) _ hlt d⟩

/-! ### Bounded fetcher: claims C3 and C8 -/

/-- The batches of the chunking loop concatenate back to the input list. -/
lemma chunksOf_flatten (k : Nat) (hk : 0 < k) :
    ∀ l : List String, (chunksOf k l).flatten = l
  | [] => by simp [chunksOf]
  | x :: rest => by
    rw [chunksOf]
    rw [dif_neg (by omega)]
    rw [List.flatten_cons]
    rw [chunksOf_flatten k hk ((x :: rest).drop k)]
    exact List.take_append_drop k (x :: rest)
termination_by l => l.length
decreasing_by
simp only [List.length_drop, List.length_cons]
omega

/-- Settling one batch appends exactly the games of its fulfilled fetches. -/
lemma settle_foldl (net : String → TransportResult) :
    ∀ (chunk : List String) (acc : List Game),
      (chunk.map (fun url => fetchJson url net)).foldl settleStep acc =
        acc ++ chunk.flatMap (settledGames net)
  | [], acc => by simp
  | url :: rest, acc => by
    rw [List.map_cons, List.foldl_cons, settle_foldl net rest]
    rw [List.flatMap_cons, ← List.append_assoc]
    congr 1
    unfold settleStep settledGames
    cases fetchJson url net with
    | error e => simp
    | ok v => simp

/-- Folding the batch step over a batch list appends the games of every
batch in order. -/
lemma batches_foldl (net : String → TransportResult) :
    ∀ (chunks : List (List String)) (acc : List Game),
      chunks.foldl
        (fun allGames chunk =>
          (chunk.map (fun url => fetchJson url net)).foldl settleStep allGames)
        acc =
        acc ++ chunks.flatMap (fun chunk => chunk.flatMap (settledGames net))
  | [], acc => by simp
  | chunk :: rest, acc => by
    rw [List.foldl_cons, batches_foldl net rest, settle_foldl net chunk]
    rw [List.flatMap_cons, ← List.append_assoc]

/-- Flattening a batch list before or after collecting games is the same. -/
lemma flatMap_flatten (f : String → List Game) :
    ∀ chunks : List (List String),
      chunks.flatMap (fun chunk => chunk.flatMap f) = chunks.flatten.flatMap f
  | [] => rfl
  | chunk :: rest => by
    rw [List.flatMap_cons, List.flatten_cons, List.flatMap_append,
      flatMap_flatten f rest]

/-- The bounded fetcher equals a per-URL flatMap of settled games. -/
lemma fetchMonthlyArchives_flatMap (monthUrls : List String)
    (net : String → TransportResult) (chunkSize : Nat) (hk : 0 < chunkSize) :
    fetchMonthlyArchives monthUrls net chunkSize =
      monthUrls.flatMap (settledGames net) := by
  unfold fetchMonthlyArchives
  rw [batches_foldl net, flatMap_flatten, chunksOf_flatten chunkSize hk]
  rfl

/-- Claim C3: for every URL list and every assignment of per-URL outcomes,
the bounded fetcher returns exactly the concatenation of the games arrays
of the successful fetches (in URL order) and raises no error: a failed
fetch and a successful fetch without a games array each contribute the
empty list. -/
theorem c3_partial_failure_tolerance (monthUrls : List String)
    (net : String → TransportResult) (chunkSize : Nat)
    (hk : 0 < chunkSize) :
    fetchMonthlyArchives monthUrls net chunkSize =
      monthUrls.flatMap (settledGames net) ∧
    (∀ url e, fetchJson url net = .error e → settledGames net url = []) ∧
    (∀ url payload, fetchJson url net = .ok payload → payload.games = none →
      settledGames net url = []) ∧
    (∀ url payload gs, fetchJson url net = .ok payload →
      payload.games = some gs → settledGames net url = gs) := by
  refine ⟨?_, ?_, ?_, ?_⟩
  · exact fetchMonthlyArchives_flatMap monthUrls net chunkSize hk
  · intro url e h
    unfold settledGames
    rw [h]
  · intro url payload h hg
    unfold settledGames
    rw [h]
    simp [hg]
  · intro url payload gs h hg
    unfold settledGames
    rw [h]
    simp [hg]

/-- A network oracle for the C3 witness: one URL fails with a server error,
one returns a payload without a games array, one returns two games. -/
def netMixed : String → TransportResult := fun url =>
  if url == "u-fail" then .response 500 none
  else if url == "u-empty" then
    .response 200 (some { games := none, joined := none, archives := none })
  else
    .response 200
      (some { games := some [gameNoMatch, aliceGame1], joined := none, archives := none })

/-- Witness for C3: with a failing URL between two successful ones the
fetcher returns exactly the games of the successful fetches. -/
theorem c3_witness :
    fetchMonthlyArchives ["u-ok", "u-fail", "u-empty"] netMixed 8 =
      ["u-ok", "u-fail", "u-empty"].flatMap (settledGames netMixed) :=
  (c3_partial_failure_tolerance ["u-ok", "u-fail", "u-empty"] netMixed 8
    (by decide)).1

/-- Claim C8: the three failure modes of the fetch primitive are
distinguishable typed errors: a non-success status fails with a request
error carrying the status code and the URL, a transport failure fails with
a transport error, and a malformed JSON body fails with a parse error. -/
theorem c8_fetch_error_taxonomy (url : String)
    (net : String → TransportResult) :
    (net url = .transportFail →
      fetchJson url net = .error .transportError) ∧
    (∀ status body, net url = .response status body →
      ¬ (200 ≤ status ∧ status ≤ 299) →
      fetchJson url net = .error (.requestError status url)) ∧
    (∀ status, net url = .response status none → 200 ≤ status → status ≤ 299 →
      fetchJson url net = .error .parseError) ∧
    (∀ s v, JsError.requestError s v ≠ JsError.transportError ∧
      JsError.requestError s v ≠ JsError.parseError ∧
      JsError.transportError ≠ JsError.parseError) := by
  refine ⟨?_, ?_, ?_, ?_⟩
  · intro h
    unfold fetchJson
    rw [h]
  · intro status body h hbad
    unfold fetchJson
    rw [h]
    simp [hbad]
  · intro status h h1 h2
    unfold fetchJson
    rw [h]
    simp [h1, h2]
  · intro s v
    refine ⟨by simp, by simp, by simp⟩

/-- Witness for C8: a 404 response yields the request error carrying status
and URL, a transport failure the transport error, a bad body the parse
error. -/
theorem c8_witness :
    fetchJson "u" (fun _ => .response 404 none) =
      .error (.requestError 404 "u") ∧
    fetchJson "u" (fun _ => .transportFail) = .error .transportError ∧
    fetchJson "u" (fun _ => .response 200 none) = .error .parseError :=
  ⟨(c8_fetch_error_taxonomy "u" (fun _ => .response 404 none)).2.1 404
      none rfl (by decide),
    (c8_fetch_error_taxonomy "u" (fun _ => .transportFail)).1 rfl,
    (c8_fetch_error_taxonomy "u" (fun _ => .response 200 none)).2.2.1 200 rfl
      (by decide) (by decide)⟩

/-! ### Archive URL planner: claim C2 -/

/-- The UTC month accessor always yields a calendar month in 1..12. -/
lemma utcMonthOf_bounds (e : Int) : 1 ≤ utcMonthOf e ∧ utcMonthOf e ≤ 12 := by
  simp only [utcMonthOf, civilFromDays]
  omega

/-- On calendar months padStart agrees with the two-digit zero padding the
spec describes. -/
lemma pad2_eq_spec (m : Int) (h1 : 1 ≤ m) (h2 : m ≤ 12) :
    jsPadStart2 (toString m) = if m < 10 then "0" ++ toString m else toString m := by
  unfold jsPadStart2
  interval_cases m <;> decide

/-- The URL built by the loop equals the spec's zero-padded URL for any
calendar month. -/
lemma archiveUrl_eq_spec (u : String) (y m : Int) (h1 : 1 ≤ m) (h2 : m ≤ 12) :
    archiveUrl u y m = specArchiveUrl u y m := by
  unfold archiveUrl specArchiveUrl
  rw [pad2_eq_spec m h1 h2]

/-- The planner loop emits exactly one URL per month offset from the start
month through the end month. -/
lemma monthLoop_eq (u : String) :
    ∀ (n : Nat) (y m ey em : Int), 1 ≤ m → m ≤ 12 → 1 ≤ em → em ≤ 12 →
      n = (ey * 12 + em + 1 - (y * 12 + m)).toNat →
      monthLoop u y m ey em =
        (List.range n).map (fun i : Nat =>
          archiveUrl u ((y * 12 + m - 1 + (i : Int)) / 12)
            ((y * 12 + m - 1 + (i : Int)) % 12 + 1)) := by
  intro n
  induction n with
  | zero =>
    intro y m ey em h1 h2 h3 h4 hn
    rw [monthLoop, dif_neg (by omega)]
    simp
  | succ n ih =>
    intro y m ey em h1 h2 h3 h4 hn
    have hguard : y < ey ∨ (y = ey ∧ m ≤ em) := by omega
    rw [monthLoop, dif_pos hguard]
    rw [List.range_succ_eq_map, List.map_cons, List.map_map]
    have e1 : (y * 12 + m - 1 + ((0 : Nat) : Int)) / 12 = y := by push_cast; omega
    have e2 : (y * 12 + m - 1 + ((0 : Nat) : Int)) % 12 + 1 = m := by push_cast; omega
    rw [e1, e2]
    congr 1
    by_cases h12 : 12 < m + 1
    · rw [dif_pos h12]
      have hm : m = 12 := by omega
      rw [ih (y + 1) 1 ey em (by omega) (by omega) h3 h4 (by omega)]
      apply List.map_congr_left
      intro i hi
      have e3 : ((y + 1) * 12 + 1 - 1 + (i : Int)) = (y * 12 + m - 1 + ((Nat.succ i : Nat) : Int)) := by
        push_cast
        omega
      rw [Function.comp_apply]
      rw [e3]
    · rw [dif_neg h12]
      rw [ih y (m + 1) ey em (by omega) (by omega) h3 h4 (by omega)]
      apply List.map_congr_left
      intro i hi
      have e3 : (y * 12 + (m + 1) - 1 + (i : Int)) = (y * 12 + m - 1 + ((Nat.succ i : Nat) : Int)) := by
        push_cast
        omega
      rw [Function.comp_apply]
      rw [e3]


/-- Month offsets and month indices are inverse up to the off-by-one. -/
lemma monthOfOffset_index (t : Int) :
    monthIndex (monthOfOffset t).1 (monthOfOffset t).2 = t + 1 := by
  simp only [monthIndex, monthOfOffset]
  omega

/-- Claim C2: a non-finite joined epoch plans no URLs; a join month not
after the current month plans exactly one zero-padded URL per calendar
month from the join month through the current month inclusive, in strictly
increasing consecutive chronological order; a join month after the current
month plans no URLs. -/
theorem c2_archive_planner (u : String) (endYear endMonth j : Int)
    (hem1 : 1 ≤ endMonth) (hem2 : endMonth ≤ 12) :
    getMonthUrlsFromJoined u none endYear endMonth = [] ∧
    (monthIndex (utcYearOf j) (utcMonthOf j) ≤ monthIndex endYear endMonth →
      getMonthUrlsFromJoined u (some j) endYear endMonth =
        (monthsBetween (utcYearOf j) (utcMonthOf j) endYear endMonth).map
          (fun ym => specArchiveUrl u ym.1 ym.2) ∧
      (monthsBetween (utcYearOf j) (utcMonthOf j) endYear endMonth).length =
        (monthIndex endYear endMonth -
          monthIndex (utcYearOf j) (utcMonthOf j) + 1).toNat ∧
      (monthsBetween (utcYearOf j) (utcMonthOf j) endYear endMonth).head? =
        some (utcYearOf j, utcMonthOf j) ∧
      List.Pairwise (fun a b => monthIndex a.1 a.2 < monthIndex b.1 b.2)
        (monthsBetween (utcYearOf j) (utcMonthOf j) endYear endMonth) ∧
      List.Chain' (fun a b => monthIndex b.1 b.2 = monthIndex a.1 a.2 + 1)
        (monthsBetween (utcYearOf j) (utcMonthOf j) endYear endMonth)) ∧
    (monthIndex endYear endMonth < monthIndex (utcYearOf j) (utcMonthOf j) →
      getMonthUrlsFromJoined u (some j) endYear endMonth = []) := by
  have hsm := utcMonthOf_bounds j
  refine ⟨rfl, ?_, ?_⟩
  · intro hle
    refine ⟨?_, ?_, ?_, ?_, ?_⟩
    · simp only [getMonthUrlsFromJoined]
      rw [monthLoop_eq u
        (monthIndex endYear endMonth -
          monthIndex (utcYearOf j) (utcMonthOf j) + 1).toNat
        (utcYearOf j) (utcMonthOf j) endYear endMonth hsm.1 hsm.2 hem1 hem2
        (by simp only [monthIndex]; omega)]
      simp only [monthsBetween, List.map_map]
      apply List.map_congr_left
      intro i hi
      rw [Function.comp_apply]
      simp only [monthOfOffset, monthIndex]
      exact archiveUrl_eq_spec u _ _ (by omega) (by omega)
    · simp [monthsBetween]
    · obtain ⟨n, hn⟩ : ∃ n, (monthIndex endYear endMonth -
          monthIndex (utcYearOf j) (utcMonthOf j) + 1).toNat = n + 1 := by
        refine ⟨(monthIndex endYear endMonth -
          monthIndex (utcYearOf j) (utcMonthOf j)).toNat, ?_⟩
        omega
      simp only [monthsBetween, hn, List.range_succ_eq_map, List.map_cons,
        List.head?_cons]
      simp only [monthOfOffset, monthIndex, Prod.mk.injEq, Option.some.injEq]
      push_cast
      omega
    · simp only [monthsBetween]
      rw [List.pairwise_map]
      refine (List.pairwise_lt_range _).imp ?_
      intro a b hab
      rw [monthOfOffset_index, monthOfOffset_index]
      omega
    · simp only [monthsBetween]
      rw [List.chain'_map]
      cases hN : (monthIndex endYear endMonth -
          monthIndex (utcYearOf j) (utcMonthOf j) + 1).toNat with
      | zero => simp
      | succ n =>
        rw [List.chain'_range_succ]
        intro k hk
        rw [monthOfOffset_index, monthOfOffset_index]
        push_cast
        omega
  · intro hgt
    simp only [getMonthUrlsFromJoined]
    rw [monthLoop_eq u 0 (utcYearOf j) (utcMonthOf j) endYear endMonth
      hsm.1 hsm.2 hem1 hem2 (by simp only [monthIndex] at hgt; omega)]
    simp

/-- Witness for C2: the spec scenario, joined epoch in November 2023 with
the clock at January 2024. -/
theorem c2_witness :
    getMonthUrlsFromJoined "bob" (some 1700000000) 2024 1 =
      (monthsBetween (utcYearOf 1700000000) (utcMonthOf 1700000000) 2024 1).map
        (fun ym => specArchiveUrl "bob" ym.1 ym.2) :=
  ((c2_archive_planner "bob" 2024 1 1700000000 (by decide) (by decide)).2.1
    (by decide)).1


/-! ### Day-granularity cache: claim C4 -/

/-- Every read outcome the spec calls a miss makes the guarded cache lookup
fall through to none without raising. -/
lemma cacheLookup_none_of_missRead (today : String) (r : CacheRead)
    (h : missRead today r) : cacheLookup today r = none := by
  rcases h with h | h | h | ⟨sk, hist, heq, hbad⟩
  · rw [h]; rfl
  · rw [h]; rfl
  · rw [h]; rfl
  · rw [heq]
    unfold cacheLookup readCachedHistory
    rcases hbad with hb | hb
    · simp [hb]
    · simp [hb]

/-- Claim C4: a parseable entry under the prefix-plus-lowercased-handle key
with today's refreshKey and an array history is returned as is; every read
failure behaves exactly like an absent entry (miss, nothing raised); the
result never depends on whether the post-compute write succeeds; and on a
miss with a successful plan the freshly reduced series is returned even
when the write fails. -/
theorem c4_day_cache (username today : String) (store : String → CacheRead)
    (endYear endMonth : Int) (net : String → TransportResult)
    (writeOk : Bool) :
    (∀ h : List Sample,
      store (historyCacheKeyBase ++ ":" ++ jsToLower username) =
        CacheRead.parsed (some today) (some h) →
      fetchRapidHistory username today store endYear endMonth net writeOk =
        .ok h) ∧
    (missRead today
        (store (historyCacheKeyBase ++ ":" ++ jsToLower username)) →
      fetchRapidHistory username today store endYear endMonth net writeOk =
        fetchRapidHistory username today (fun _ => CacheRead.absent)
          endYear endMonth net writeOk) ∧
    (fetchRapidHistory username today store endYear endMonth net false =
      fetchRapidHistory username today store endYear endMonth net true) ∧
    (∀ archives : List String,
      missRead today
        (store (historyCacheKeyBase ++ ":" ++ jsToLower username)) →
      resolveArchives (jsToLower username) endYear endMonth net =
        .ok archives →
      fetchRapidHistory username today store endYear endMonth net writeOk =
        .ok (reduceHistory (fetchMonthlyArchives archives net 8)
          (jsToLower username) "rapid")) := by
  refine ⟨?_, ?_, ?_, ?_⟩
  · intro h hstore
    simp only [fetchRapidHistory]
    rw [hstore]
    simp [cacheLookup, readCachedHistory]
  · intro hmiss
    simp only [fetchRapidHistory]
    rw [cacheLookup_none_of_missRead today _ hmiss]
    rfl
  · simp only [fetchRapidHistory]
    cases hc : cacheLookup today
        (store (historyCacheKeyBase ++ ":" ++ jsToLower username)) with
    | some h => rfl
    | none =>
      cases hres : resolveArchives (jsToLower username) endYear endMonth net with
      | error e => rfl
      | ok archives => rfl
  · intro archives hmiss hres
    simp only [fetchRapidHistory]
    rw [cacheLookup_none_of_missRead today _ hmiss, hres]
    cases writeOk with
    | false => rfl
    | true => rfl

/-- Witness for C4: a valid entry with today's refresh key is returned
without touching the (failing) network. -/
theorem c4_witness :
    fetchRapidHistory "Alice" "2024-01-01"
      (fun _ => CacheRead.parsed (some "2024-01-01") (some [])) 2024 1
      (fun _ => TransportResult.transportFail) true = .ok [] :=
  (c4_day_cache "Alice" "2024-01-01"
    (fun _ => CacheRead.parsed (some "2024-01-01") (some [])) 2024 1
    (fun _ => TransportResult.transportFail) true).1 [] rfl


/-! ### Head-to-head aggregator: claims C7 and C10 -/

instance : IsTotal Game endTimeGe := ⟨fun a b => Int.le_total b.end_time a.end_time⟩

instance : IsTrans Game endTimeGe := ⟨fun _ _ _ h1 h2 => le_trans h2 h1⟩

/-- When the callback never throws on the list, the throwing filter agrees
with the plain filter. -/
lemma filterE_eq_ok {α ε : Type u} (p : α → Except ε Bool) (q : α → Bool) :
    ∀ l : List α, (∀ x ∈ l, p x = .ok (q x)) →
      filterE p l = .ok (l.filter q)
  | [], _ => rfl
  | x :: xs, h => by
    have hx := h x (List.mem_cons_self x xs)
    have hrec := filterE_eq_ok p q xs (fun y hy => h y (List.mem_cons_of_mem x hy))
    simp [filterE, hx, hrec, List.filter_cons]

/-- If the callback throws on some member, the throwing filter throws. -/
lemma filterE_error {α ε : Type u} (p : α → Except ε Bool) :
    ∀ l : List α, (∃ x ∈ l, ∃ e, p x = .error e) →
      ∃ e, filterE p l = .error e
  | x :: xs, ⟨y, hy, e, he⟩ => by
    cases hpx : p x with
    | error e0 => exact ⟨e0, by simp [filterE, hpx]⟩
    | ok b =>
      have hyxs : y ∈ xs := by
        rcases List.mem_cons.mp hy with h1 | h1
        · rw [h1, hpx] at he
          cases he
        · exact h1
      obtain ⟨e1, he1⟩ := filterE_error p xs ⟨y, hyxs, e, he⟩
      exact ⟨e1, by simp [filterE, hpx, he1]⟩

/-- On a record whose participants and usernames are present, the
head-to-head callback returns the spec's match predicate. -/
lemma mutualPred_eq_ok (p1 p2 : String) (g : Game)
    (hwf : g.time_class = "rapid" → g.rated = true → wellFormed g) :
    mutualPred p1 p2 g = .ok (specMutual p1 p2 g) := by
  by_cases hguard : g.time_class ≠ "rapid" ∨ g.rated = false
  · unfold mutualPred
    rw [if_pos hguard]
    unfold specMutual
    rcases hguard with h | h
    · have hne : (g.time_class == "rapid") = false := beq_eq_false_iff_ne.mpr h
      simp [hne]
    · simp [h]
  · push_neg at hguard
    obtain ⟨hc, hrf⟩ := hguard
    have hr : g.rated = true := by
      cases hb : g.rated with
      | false => exact absurd hb hrf
      | true => rfl
    obtain ⟨hwu, hbu⟩ := hwf hc hr
    cases hw : g.white with
    | none => rw [hw] at hwu; simp at hwu
    | some w =>
      cases hwn : w.username with
      | none => rw [hw] at hwu; simp [hwn] at hwu
      | some wn =>
        cases hb : g.black with
        | none => rw [hb] at hbu; simp at hbu
        | some b =>
          cases hbn : b.username with
          | none => rw [hb] at hbu; simp [hbn] at hbu
          | some bn =>
            unfold mutualPred
            rw [if_neg (by simp [hc, hr])]
            simp only [hw, hwn, hb, hbn]
            unfold specMutual normName
            simp [hc, hr, hw, hwn, hb, hbn]

/-- A rated rapid game of p1 (white) against the third player p3. -/
def p1p3Game : Game :=
  { end_time := 30, time_class := "rapid", rated := true,
    white := some { username := some "p1", rating := some 1000 },
    black := some { username := some "p3", rating := some 1010 } }

/-- A rated rapid game of p2 (white) against p1 (black). -/
def p2p1Game : Game :=
  { end_time := 40, time_class := "rapid", rated := true,
    white := some { username := some "p2", rating := some 1020 },
    black := some { username := some "p1", rating := some 1030 } }

/-- The network oracle of the head-to-head scenario: the profile of p1 has
no usable joined epoch, the archive index lists one month, and that month
holds the p1-p3 game and the p2-p1 game. -/
def netH2H : String → TransportResult := fun url =>
  if url == profileUrl "p1" then
    .response 200 (some { games := none, joined := none, archives := none })
  else if url == archivesIndexUrl "p1" then
    .response 200 (some { games := none, joined := none, archives := some ["m1"] })
  else
    .response 200 (some { games := some [p1p3Game, p2p1Game], joined := none, archives := none })

/-- Claim C7: on archives whose rated rapid records are well formed,
fetchGamesBetween returns exactly the rated rapid games whose normalized
participants are the two handles in either color assignment, sorted
descending by end_time with no deduplication; in particular, in the
p1-p2-p3 scenario only the p2 versus p1 game is returned and the p1 versus
p3 game is excluded. -/
theorem c7_head_to_head (player1 player2 : String) (endYear endMonth : Int)
    (net : String → TransportResult) (archives : List String)
    (hres : resolveArchives (jsToLower player1) endYear endMonth net =
      .ok archives)
    (hwf : ∀ g ∈ fetchMonthlyArchives archives net 8,
      g.time_class = "rapid" → g.rated = true → wellFormed g) :
    (∃ result,
      fetchGamesBetween player1 player2 endYear endMonth net = .ok result ∧
      result = List.insertionSort endTimeGe
        ((fetchMonthlyArchives archives net 8).filter
          (specMutual (jsToLower player1) (jsToLower player2))) ∧
      List.Sorted endTimeGe result) ∧
    fetchGamesBetween "p1" "p2" 2024 1 netH2H = .ok [p2p1Game] := by
  constructor
  · have hfe := filterE_eq_ok
      (mutualPred (jsToLower player1) (jsToLower player2))
      (specMutual (jsToLower player1) (jsToLower player2))
      (fetchMonthlyArchives archives net 8)
      (fun g hg => mutualPred_eq_ok _ _ g (hwf g hg))
    refine ⟨_, ?_, rfl, List.sorted_insertionSort endTimeGe _⟩
    simp only [fetchGamesBetween, hres, hfe]
  · have harch : fetchMonthlyArchives ["m1"] netH2H 8 = [p1p3Game, p2p1Game] := by
      rw [fetchMonthlyArchives_flatMap ["m1"] netH2H 8 (by decide)]
      rfl
    simp only [fetchGamesBetween,
      show resolveArchives (jsToLower "p1") 2024 1 netH2H = .ok ["m1"] from rfl,
      harch]
    rfl

/-- Witness for C7: the scenario network satisfies the hypotheses, so the
theorem applies with the single-month archive list. -/
theorem c7_witness :
    (∃ result,
      fetchGamesBetween "p1" "p2" 2024 1 netH2H = .ok result ∧
      result = List.insertionSort endTimeGe
        ((fetchMonthlyArchives ["m1"] netH2H 8).filter
          (specMutual (jsToLower "p1") (jsToLower "p2"))) ∧
      List.Sorted endTimeGe result) ∧
    fetchGamesBetween "p1" "p2" 2024 1 netH2H = .ok [p2p1Game] :=
  c7_head_to_head "p1" "p2" 2024 1 netH2H ["m1"] rfl
    (by
      intro g hg
      have heval : fetchMonthlyArchives ["m1"] netH2H 8 = [p1p3Game, p2p1Game] := by
        rw [fetchMonthlyArchives_flatMap ["m1"] netH2H 8 (by decide)]
        rfl
      rw [heval] at hg
      fin_cases hg <;> intro _ _ <;> decide)

/-- On a rated rapid record missing a participant or username the
head-to-head callback throws the TypeError of the unguarded dereference. -/
lemma mutualPred_error (p1 p2 : String) (g : Game)
    (hc : g.time_class = "rapid") (hr : g.rated = true)
    (hbad : ¬ wellFormed g) :
    mutualPred p1 p2 g = .error .typeError := by
  unfold mutualPred
  rw [if_neg (by simp [hc, hr])]
  cases hw : g.white with
  | none => rfl
  | some w =>
    cases hwn : w.username with
    | none => simp [hwn]
    | some wn =>
      cases hb : g.black with
      | none => simp [hwn, hb]
      | some b =>
        cases hbn : b.username with
        | none => simp [hwn, hb, hbn]
        | some bn =>
          exact absurd ⟨by simp [hw, hwn], by simp [hb, hbn]⟩ hbad

/-- Claim C10 as amended: a fetched rated rapid record that lacks a white
or black participant object (or whose participant lacks a username) makes
fetchGamesBetween throw, while the rating-history reducer never throws on
such a record and drops it whenever its guarded color match or rating check
fails. -/
theorem c10_unguarded_dereference (player1 player2 : String)
    (endYear endMonth : Int) (net : String → TransportResult)
    (archives : List String) (g : Game)
    (hres : resolveArchives (jsToLower player1) endYear endMonth net =
      .ok archives)
    (hmem : g ∈ fetchMonthlyArchives archives net 8)
    (hc : g.time_class = "rapid") (hr : g.rated = true)
    (hbad : ¬ wellFormed g) :
    (∃ e, fetchGamesBetween player1 player2 endYear endMonth net =
      .error e) ∧
    (∀ (u tc : String) (l1 l2 : List Game), contributes u g = false →
      reduceHistory (l1 ++ g :: l2) u tc = reduceHistory (l1 ++ l2) u tc) := by
  constructor
  · obtain ⟨e, he⟩ := filterE_error
      (mutualPred (jsToLower player1) (jsToLower player2))
      (fetchMonthlyArchives archives net 8)
      ⟨g, hmem, .typeError, mutualPred_error _ _ g hc hr hbad⟩
    refine ⟨e, ?_⟩
    simp only [fetchGamesBetween, hres, he]
  · intro u tc l1 l2 hcon
    exact reduceHistory_drop l1 l2 g u tc (Or.inr hcon)

/-- A rated blitz game with no white participant object: the early
rated-rapid guard returns false before any dereference. -/
def blitzNoWhite : Game :=
  { end_time := 10, time_class := "blitz", rated := true,
    white := none,
    black := some { username := some "p2", rating := some 1000 } }

/-- Network oracle whose single archive month holds only the malformed
blitz record. -/
def netBlitz : String → TransportResult := fun url =>
  if url == profileUrl "p1" then
    .response 200 (some { games := none, joined := none, archives := none })
  else if url == archivesIndexUrl "p1" then
    .response 200 (some { games := none, joined := none, archives := some ["m2"] })
  else
    .response 200 (some { games := some [blitzNoWhite], joined := none, archives := none })

/-- Claim C10, counterexample to the literal statement: a merged record
lacking a white participant does not make fetchGamesBetween throw when it
is not rated rapid -- the early guard skips it and the call returns an
empty result. -/
theorem c10_counterexample :
    fetchGamesBetween "p1" "p2" 2024 1 netBlitz = .ok [] ∧
    blitzNoWhite.white.bind Side.username = none := by
  constructor
  · have harch : fetchMonthlyArchives ["m2"] netBlitz 8 = [blitzNoWhite] := by
      rw [fetchMonthlyArchives_flatMap ["m2"] netBlitz 8 (by decide)]
      rfl
    simp only [fetchGamesBetween,
      show resolveArchives (jsToLower "p1") 2024 1 netBlitz = .ok ["m2"] from rfl,
      harch]
    rfl
  · rfl

/-- A rated rapid game with no white participant object, reaching the
unguarded dereference. -/
def rapidNoWhite : Game :=
  { end_time := 20, time_class := "rapid", rated := true,
    white := none,
    black := some { username := some "p9", rating := some 900 } }

/-- Network oracle whose single archive month holds only the malformed
rapid record. -/
def netRapidBad : String → TransportResult := fun url =>
  if url == profileUrl "p1" then
    .response 200 (some { games := none, joined := none, archives := none })
  else if url == archivesIndexUrl "p1" then
    .response 200 (some { games := none, joined := none, archives := some ["m3"] })
  else
    .response 200 (some { games := some [rapidNoWhite], joined := none, archives := none })

/-- Witness for C10: the malformed rated rapid record makes
fetchGamesBetween throw, while the reducer drops it. -/
theorem c10_witness :
    (∃ e, fetchGamesBetween "p1" "p2" 2024 1 netRapidBad = .error e) ∧
    reduceHistory ([] ++ rapidNoWhite :: []) "p1" "rapid" =
      reduceHistory ([] ++ []) "p1" "rapid" := by
  have h := c10_unguarded_dereference "p1" "p2" 2024 1 netRapidBad ["m3"]
    rapidNoWhite rfl
    (by
      rw [fetchMonthlyArchives_flatMap ["m3"] netRapidBad 8 (by decide)]
      decide)
    rfl rfl (by decide)
  exact ⟨h.1, h.2 "p1" "rapid" [] [] (by decide)⟩

end Chess
